import Mathlib

/-!
Verification of the Redis AI tools core (vector store, semantic cache,
session manager, RAG orchestrator) and of the OpenRouter chat service.

The Python implementation of the four core subsystems
(`vector_search/vector_store.py`, `semantic_cache/semantic_cache.py`,
`session_manager/session_manager.py`, `rag/rag_system.py`) is referenced by
the repository's documentation and callers but is not itself part of the
source tree; those components are modelled here from the specification.
The OpenRouter chat request builder is embedded from
`src/lib/services/openrouter.ts`, which is present in the tree.

Vectors are modelled as lists of rationals.  Cosine similarity is a real
number; to keep the store operations executable they rank candidates by
`simKey q v = cos(q,v) * |cos(q,v)| * sqnorm q`, an exact rational quantity
that is a strictly monotone transform of the cosine for a fixed query `q`
(proved below), so the induced order and all threshold tests agree exactly
with the cosine order.
-/

/-- Dot product of two rational vectors (componentwise, truncating zip). -/
def dot (a b : List ℚ) : ℚ := (List.zipWith (· * ·) a b).sum

/-- Squared Euclidean norm of a vector. -/
def sqnorm (v : List ℚ) : ℚ := dot v v

/-- Cosine similarity of two vectors, the metric named by the
specification (range `[-1, 1]`).  Real-valued; used only in specification
statements, never by the executable operations. -/
noncomputable def cosSim (a b : List ℚ) : ℝ :=
  (dot a b : ℝ) / (Real.sqrt (sqnorm a) * Real.sqrt (sqnorm b))

/-- Executable ranking key used by the store and the cache: for a query `q`
and candidate `v` this equals `cos(q,v) * |cos(q,v)| * sqnorm q`, a strictly
monotone function of the cosine similarity (for fixed `q`), computed exactly
in `ℚ`.  A candidate with zero norm gets the junk key `0`. -/
def simKey (q v : List ℚ) : ℚ :=
  if sqnorm v = 0 then 0 else dot q v * |dot q v| / sqnorm v

/-- Indexing helper: pair every element of a list with its position,
starting at `i`. -/
def withIdx {α : Type} : ℕ → List α → List (ℕ × α)
  | _, [] => []
  | i, a :: l => (i, a) :: withIdx (i + 1) l

/-- Modelled from the spec: record stored by the Vector Store
(`IndexedRecord` of §3; the Python `vector_search/vector_store.py` is not in
the source tree). -/
structure IndexedRecord where
  id : String
  vector : List ℚ
  text : String
  metadata : List (String × String)
  deriving DecidableEq

/-- Modelled from the spec: the Vector Store state — a fixed dimensionality
and the records in insertion order. -/
structure VectorStore where
  dims : ℕ
  records : List IndexedRecord
  deriving DecidableEq

/-- Modelled from the spec: error taxonomy of the Vector Store (§7). -/
inductive StoreError where
  | dimensionMismatch
  deriving DecidableEq

/-- Modelled from the spec: `add` validates the vector dimensionality and
fails with `DimensionMismatch` otherwise; a successful add appends the
record (insertion order). -/
def VectorStore.add (s : VectorStore) (r : IndexedRecord) :
    Except StoreError VectorStore :=
  if r.vector.length = s.dims then
    Except.ok { s with records := s.records ++ [r] }
  else
    Except.error StoreError.dimensionMismatch

/-- Ranking relation for `similarity_search`: higher cosine similarity
first (via the exact key `simKey`), ties broken by insertion order with the
earlier-inserted record first. -/
def rankRel (q : List ℚ) (p₁ p₂ : ℕ × IndexedRecord) : Prop :=
  simKey q p₂.2.vector < simKey q p₁.2.vector ∨
    (simKey q p₁.2.vector = simKey q p₂.2.vector ∧ p₁.1 ≤ p₂.1)

instance (q : List ℚ) : DecidableRel (rankRel q) := fun p₁ p₂ =>
  decidable_of_iff
    (simKey q p₂.2.vector < simKey q p₁.2.vector ∨
      (simKey q p₁.2.vector = simKey q p₂.2.vector ∧ p₁.1 ≤ p₂.1))
    Iff.rfl

instance (q : List ℚ) : IsTotal (ℕ × IndexedRecord) (rankRel q) where
  total p₁ p₂ := by
    rcases lt_trichotomy (simKey q p₁.2.vector) (simKey q p₂.2.vector) with h | h | h
    · exact Or.inr (Or.inl h)
    · rcases Nat.le_total p₁.1 p₂.1 with hi | hi
      · exact Or.inl (Or.inr ⟨h, hi⟩)
      · exact Or.inr (Or.inr ⟨h.symm, hi⟩)
    · exact Or.inl (Or.inl h)

instance (q : List ℚ) : IsTrans (ℕ × IndexedRecord) (rankRel q) where
  trans p₁ p₂ p₃ h₁₂ h₂₃ := by
    rcases h₁₂ with h₁₂ | ⟨he₁₂, hi₁₂⟩
    · rcases h₂₃ with h₂₃ | ⟨he₂₃, hi₂₃⟩
      · exact Or.inl (h₂₃.trans h₁₂)
      · exact Or.inl (he₂₃ ▸ h₁₂)
    · rcases h₂₃ with h₂₃ | ⟨he₂₃, hi₂₃⟩
      · exact Or.inl (lt_of_lt_of_eq h₂₃ he₁₂.symm)
      · exact Or.inr ⟨he₁₂.trans he₂₃, hi₁₂.trans hi₂₃⟩

/-- Modelled from the spec: the candidate records of the store, each paired
with its insertion index, sorted by descending similarity with ties broken
by insertion order (earlier first). -/
def searchRanked (s : VectorStore) (q : List ℚ) : List (ℕ × IndexedRecord) :=
  List.insertionSort (rankRel q) (withIdx 0 s.records)

/-- Modelled from the spec: `similarity_search(query_vector, k)` — the
top-`k` records by descending cosine similarity, ties broken by insertion
order (earlier wins); an empty store yields an empty sequence.  The score
accompanying a returned record `r` is `cosSim q r.vector`. -/
def VectorStore.similarity_search (s : VectorStore) (q : List ℚ) (k : ℕ) :
    List IndexedRecord :=
  ((searchRanked s q).take k).map Prod.snd

/-- Modelled from the spec: a Semantic Cache entry (`CacheEntry` of §3). -/
structure CacheEntry where
  query_vector : List ℚ
  response : String
  created_at : ℕ
  ttl : ℕ
  deriving DecidableEq

/-- Modelled from the spec: the Semantic Cache state — entries in insertion
order (oldest first), the configured similarity threshold and the
configured ttl for new entries. -/
structure SemanticCache where
  entries : List CacheEntry
  similarity_threshold : ℚ
  ttl : ℕ
  deriving DecidableEq

/-- Modelled from the spec: error taxonomy of the cache-miss flow (§7). -/
inductive CacheError where
  | embeddingFailure
  | generationFailure
  deriving DecidableEq

/-- Entries that are not expired at time `now`: an entry created with ttl
`T` is expired exactly when `now > created_at + T`. -/
def liveEntries (entries : List CacheEntry) (now : ℕ) : List CacheEntry :=
  entries.filter (fun e => now ≤ e.created_at + e.ttl)

/-- One step of the best-match scan: keep the candidate with the higher
similarity; on a tie the entry seen later (more recent) wins. -/
def bestStep (qv : List ℚ) (best : Option CacheEntry) (e : CacheEntry) :
    Option CacheEntry :=
  match best with
  | none => some e
  | some b =>
      if simKey qv b.query_vector ≤ simKey qv e.query_vector then some e
      else some b

/-- Modelled from the spec: the single best match by cosine similarity
among the given entries; on equal scores the most recent (later) entry wins
(design note of §9). -/
def bestMatch (qv : List ℚ) (entries : List CacheEntry) : Option CacheEntry :=
  entries.foldl (bestStep qv) none

/-- Modelled from the spec: cache lookup — restrict to non-expired entries,
take the single best match, and return it only if its cosine similarity is
at least the threshold `t` (the test `cos ≥ t` is performed exactly as
`simKey ≥ t * |t| * sqnorm qv`). -/
def lookupHit (entries : List CacheEntry) (qv : List ℚ) (t : ℚ) (now : ℕ) :
    Option CacheEntry :=
  match bestMatch qv (liveEntries entries now) with
  | none => none
  | some b =>
      if t * |t| * sqnorm qv ≤ simKey qv b.query_vector then some b else none

/-- Outcome of one `get_or_generate` call: the result (or propagated
failure), the cache state after the call, and how many times `generate_fn`
was invoked during the call. -/
structure GenOutcome where
  result : Except CacheError (String × Bool)
  cache : SemanticCache
  genCalls : ℕ

/-- Modelled from the spec: `get_or_generate(query_text, generate_fn)` —
embed the query (failure propagates as `EmbeddingFailure`); look up the
best non-expired entry at or above the threshold and return it as a hit;
otherwise invoke `generate_fn` once (failure propagates as
`GenerationFailure`, writing nothing) and on success store a new
`CacheEntry` with the query's embedding, the response, the current
timestamp and the cache's configured ttl, returning a miss. -/
def get_or_generate (c : SemanticCache) (embed : String → Option (List ℚ))
    (gen : String → Option String) (q : String) (now : ℕ) : GenOutcome :=
  match embed q with
  | none => ⟨Except.error CacheError.embeddingFailure, c, 0⟩
  | some qv =>
      match lookupHit c.entries qv c.similarity_threshold now with
      | some e => ⟨Except.ok (e.response, true), c, 0⟩
      | none =>
          match gen q with
          | none => ⟨Except.error CacheError.generationFailure, c, 1⟩
          | some r =>
              ⟨Except.ok (r, false),
                { c with entries := c.entries ++ [⟨qv, r, now, c.ttl⟩] }, 1⟩

/-- Modelled from the spec: turn roles (§3). -/
inductive Role where
  | system
  | user
  | assistant
  deriving DecidableEq

/-- Modelled from the spec: one conversation turn. -/
structure Turn where
  role : Role
  content : String
  timestamp : ℕ
  deriving DecidableEq

/-- Modelled from the spec: a session — ordered turns, metadata, the time
of the last update and the ttl. -/
structure Session where
  session_id : String
  turns : List Turn
  metadata : List (String × String)
  updated_at : ℕ
  ttl : ℕ
  deriving DecidableEq

/-- Modelled from the spec: the Session Manager state — sessions keyed by
id, plus the ttl given to newly created sessions. -/
structure SessionManager where
  sessions : List (String × Session)
  ttl : ℕ
  deriving DecidableEq

/-- First session stored under the given id, if any. -/
def findSession : List (String × Session) → String → Option Session
  | [], _ => none
  | p :: rest, sid => if p.1 = sid then some p.2 else findSession rest sid

/-- Replace the session stored under the given id. -/
def updateSession (l : List (String × Session)) (sid : String) (s : Session) :
    List (String × Session) :=
  l.map (fun p => if p.1 = sid then (sid, s) else p)

/-- Modelled from the spec: `create_session` — initializes an empty turn
sequence and sets `updated_at = now`.  Fresh unique id generation is
delegated to the caller (the `sid` argument). -/
def SessionManager.create_session (m : SessionManager) (sid : String)
    (metadata : List (String × String)) (now : ℕ) : SessionManager :=
  { m with sessions := m.sessions ++ [(sid, ⟨sid, [], metadata, now, m.ttl⟩)] }

/-- Modelled from the spec: `get_session` — `none` (`SessionNotFound`) if
the id was never created or the session is expired
(`now - updated_at > ttl`). -/
def SessionManager.get_session (m : SessionManager) (sid : String) (now : ℕ) :
    Option Session :=
  match findSession m.sessions sid with
  | none => none
  | some s => if s.updated_at + s.ttl < now then none else some s

/-- Modelled from the spec: `append_turn` — fails with `SessionNotFound`
(`none`) if the session is absent or expired; otherwise appends
`Turn(role, content, now)` and refreshes `updated_at`. -/
def SessionManager.append_turn (m : SessionManager) (sid : String)
    (role : Role) (content : String) (now : ℕ) : Option SessionManager :=
  match m.get_session sid now with
  | none => none
  | some s =>
      some { m with
        sessions := updateSession m.sessions sid
          { s with turns := s.turns ++ [⟨role, content, now⟩], updated_at := now } }

/-- Modelled from the spec: `history` — the turns oldest first, or the
suffix of the most recent `maxTurns` when bounded; `none` for an absent or
expired session. -/
def SessionManager.history (m : SessionManager) (sid : String) (now : ℕ)
    (maxTurns : Option ℕ) : Option (List Turn) :=
  (m.get_session sid now).map fun s =>
    match maxTurns with
    | none => s.turns
    | some n => s.turns.drop (s.turns.length - n)

/-- Modelled from the spec: the RAG Orchestrator's
`answer(query_text, k, generate_fn)` — embed the query, retrieve the top-k
records, concatenate the retrieved texts in descending-score order into a
grounding context, and invoke the generation function on the context and
query; zero retrieved records yield the empty grounding context rather
than a failure. -/
def RAG.answer (s : VectorStore) (embed : String → Option (List ℚ))
    (gen : String → String → Option String) (q : String) (k : ℕ) :
    Option String :=
  match embed q with
  | none => none
  | some qv =>
      gen (String.intercalate "\n"
        ((s.similarity_search qv k).map (fun r => r.text))) q

/-- Chat message as sent to the OpenRouter chat-completions endpoint
(embedded from `src/lib/services/openrouter.ts`). -/
structure ChatMsg where
  role : String
  content : String
  deriving DecidableEq

/-- Embedded from `src/lib/services/openrouter.ts` (`OpenRouterConfig`). -/
structure OpenRouterConfig where
  apiKey : String
  model : String
  systemPrompt : String
  deriving DecidableEq

/-- Caller-supplied partial configuration (`Partial<OpenRouterConfig>`). -/
structure PartialORConfig where
  apiKey : Option String
  model : Option String
  systemPrompt : Option String
  deriving DecidableEq

/-- JavaScript object spread `{ ...d, ...p }`: fields present in `p`
override `d`. -/
def mergeConfig (d : OpenRouterConfig) (p : PartialORConfig) : OpenRouterConfig :=
  { apiKey := p.apiKey.getD d.apiKey
    model := p.model.getD d.model
    systemPrompt := p.systemPrompt.getD d.systemPrompt }

/-- The module-level default system prompt of `openrouter.ts`. -/
def annaSystemPrompt : String :=
  "Ты Анна, русскоговорящий AI-агент по продажам грузовиков компании Business Trucks.\n  Твоя задача - помогать клиентам выбрать подходящий грузовик, отвечать на их вопросы о характеристиках,\n  ценах и условиях покупки. Всегда отвечай на русском языке, будь вежлива, профессиональна и информативна.\n  Предлагай конкретные модели грузовиков на основе потребностей клиента."

/-- The module-level `defaultConfig` of `openrouter.ts`; the two
environment variables are passed explicitly. -/
def defaultConfig (envApiKey envModel : Option String) : OpenRouterConfig :=
  { apiKey := envApiKey.getD ""
    model := envModel.getD "google/gemini-2.5-pro-exp-03-25:free"
    systemPrompt := annaSystemPrompt }

/-- The JSON body `sendChatRequest` posts to the chat-completions
endpoint. -/
structure RequestBody where
  model : String
  messages : List ChatMsg
  temperature : ℚ
  max_tokens : ℕ
  deriving DecidableEq

/-- Embedded from `src/lib/services/openrouter.ts`: `sendChatRequest`
merges the caller's partial config over the defaults, rejects an empty API
key, prepends the system-prompt message to the caller's messages and posts
the resulting body.  The network call and response handling are outside
the embedding; the function returns the outgoing request body. -/
def sendChatRequest (messages : List ChatMsg) (config : PartialORConfig)
    (envApiKey envModel : Option String) : Except String RequestBody :=
  let mergedConfig := mergeConfig (defaultConfig envApiKey envModel) config
  if mergedConfig.apiKey = "" then
    Except.error "OpenRouter API key is required"
  else
    Except.ok
      { model := mergedConfig.model
        messages := ⟨"system", mergedConfig.systemPrompt⟩ :: messages
        temperature := 7 / 10
        max_tokens := 1024 }

/-- Concrete records for the §8 search scenario. -/
def exRec1 : IndexedRecord := ⟨"1", [1, 0], "first", []⟩

/-- Second scenario record (the orthogonal vector, excluded from the
top-2). -/
def exRec2 : IndexedRecord := ⟨"2", [0, 1], "second", []⟩

/-- Third scenario record. -/
def exRec3 : IndexedRecord := ⟨"3", [9/10, 1/10], "third", []⟩

/-- The scenario store built through `add` (insertion order
`exRec1, exRec2, exRec3`). -/
def exampleStoreBuilt : Except StoreError VectorStore :=
  (VectorStore.add ⟨2, []⟩ exRec1) >>= fun s =>
    (s.add exRec2) >>= fun s₂ => s₂.add exRec3

/-- The resulting scenario store. -/
def exampleStore : VectorStore := ⟨2, [exRec1, exRec2, exRec3]⟩

/-! Basic facts about the vector arithmetic. -/

theorem dot_nil (b : List ℚ) : dot [] b = 0 := rfl

theorem dot_nil_right (a : List ℚ) : dot a [] = 0 := by
  cases a <;> rfl

theorem dot_cons (x y : ℚ) (xs ys : List ℚ) :
    dot (x :: xs) (y :: ys) = x * y + dot xs ys := by
  simp [dot]

theorem dot_self_nonneg (v : List ℚ) : 0 ≤ dot v v := by
  induction v with
  | nil => simp [dot_nil]
  | cons x xs ih => rw [dot_cons]; nlinarith [mul_self_nonneg x]

theorem sqnorm_nonneg (v : List ℚ) : 0 ≤ sqnorm v := dot_self_nonneg v

/-- Cauchy-Schwarz for the rational dot product. -/
theorem dot_sq_le (a : List ℚ) : ∀ b : List ℚ, dot a b ^ 2 ≤ sqnorm a * sqnorm b := by
  induction a with
  | nil =>
      intro b
      simp [dot_nil, sqnorm]
  | cons x xs ih =>
      intro b
      cases b with
      | nil => simp [dot_nil_right, sqnorm, dot_nil]
      | cons y ys =>
          have hA : 0 ≤ sqnorm xs := sqnorm_nonneg xs
          have hB : 0 ≤ sqnorm ys := sqnorm_nonneg ys
          have hI := ih ys
          simp only [sqnorm, dot_cons] at *
          rcases eq_or_lt_of_le hB with hB0 | hBpos
          · have hD : dot xs ys = 0 := by nlinarith [sq_nonneg (dot xs ys)]
            rw [hD]
            nlinarith [mul_nonneg hA (mul_self_nonneg y)]
          · nlinarith [sq_nonneg (x * dot ys ys - y * dot xs ys),
              mul_nonneg (sub_nonneg.mpr hI) hB,
              mul_nonneg (sub_nonneg.mpr hI) (mul_self_nonneg y), hBpos]

theorem simKey_of_ne (q v : List ℚ) (hv : sqnorm v ≠ 0) :
    simKey q v = dot q v * |dot q v| / sqnorm v := if_neg hv

theorem simKey_self (v : List ℚ) (hv : 0 < sqnorm v) : simKey v v = sqnorm v := by
  rw [simKey_of_ne v v (ne_of_gt hv)]
  show dot v v * |dot v v| / sqnorm v = sqnorm v
  have h : dot v v = sqnorm v := rfl
  rw [h, abs_of_pos hv, mul_div_assoc, div_self (ne_of_gt hv), mul_one]

/-- The ranking key of any candidate is at most the key a perfect match
would get, an exact consequence of Cauchy-Schwarz. -/
theorem simKey_le_sqnorm (q w : List ℚ) (hq : 0 ≤ sqnorm q) :
    simKey q w ≤ sqnorm q := by
  by_cases hw : sqnorm w = 0
  · simpa [simKey, hw] using hq
  · have hwpos : 0 < sqnorm w := lt_of_le_of_ne (sqnorm_nonneg w) (Ne.symm hw)
    rw [simKey_of_ne q w hw, div_le_iff₀ hwpos]
    have h1 : dot q w * |dot q w| ≤ |dot q w| * |dot q w| :=
      mul_le_mul_of_nonneg_right (le_abs_self _) (abs_nonneg _)
    have h2 : |dot q w| * |dot q w| = dot q w ^ 2 := by
      rw [← abs_mul, abs_mul_self, sq]
    have h3 := dot_sq_le q w
    linarith

theorem strictMono_mul_abs : StrictMono (fun x : ℝ => x * |x|) := by
  intro a b hab
  rcases le_or_lt 0 a with ha | ha
  · have hb : 0 < b := lt_of_le_of_lt ha hab
    simp only [abs_of_nonneg ha, abs_of_pos hb]
    nlinarith
  · rcases le_or_lt 0 b with hb | hb
    · simp only [abs_of_neg ha, abs_of_nonneg hb]
      nlinarith
    · simp only [abs_of_neg ha, abs_of_neg hb]
      nlinarith

/-- The executable key is the monotone transform `cos * |cos| * sqnorm q`
of the cosine similarity. -/
theorem cosSim_mul_abs (q w : List ℚ) (hq : 0 < sqnorm q) (hw : 0 < sqnorm w) :
    cosSim q w * |cosSim q w| = (simKey q w : ℝ) / (sqnorm q : ℝ) := by
  have hQ : (0 : ℝ) < (sqnorm q : ℝ) := by exact_mod_cast hq
  have hW : (0 : ℝ) < (sqnorm w : ℝ) := by exact_mod_cast hw
  have hsq : (0 : ℝ) < Real.sqrt (sqnorm q) := Real.sqrt_pos.mpr hQ
  have hsw : (0 : ℝ) < Real.sqrt (sqnorm w) := Real.sqrt_pos.mpr hW
  have hprod : (0 : ℝ) < Real.sqrt (sqnorm q) * Real.sqrt (sqnorm w) :=
    mul_pos hsq hsw
  have hsq2 : Real.sqrt (sqnorm q) * Real.sqrt (sqnorm q) = (sqnorm q : ℝ) :=
    Real.mul_self_sqrt (le_of_lt hQ)
  have hsw2 : Real.sqrt (sqnorm w) * Real.sqrt (sqnorm w) = (sqnorm w : ℝ) :=
    Real.mul_self_sqrt (le_of_lt hW)
  rw [cosSim, simKey_of_ne q w (ne_of_gt hw), abs_div,
    abs_of_pos hprod]
  push_cast
  rw [div_mul_div_comm]
  rw [show Real.sqrt (sqnorm q) * Real.sqrt (sqnorm w) *
      (Real.sqrt (sqnorm q) * Real.sqrt (sqnorm w)) = (sqnorm q : ℝ) * (sqnorm w : ℝ) by
    rw [mul_mul_mul_comm, hsq2, hsw2]]
  rw [div_div]
  congr 1
  ring

theorem simKey_le_iff (q w₁ w₂ : List ℚ) (hq : 0 < sqnorm q)
    (h₁ : 0 < sqnorm w₁) (h₂ : 0 < sqnorm w₂) :
    simKey q w₁ ≤ simKey q w₂ ↔ cosSim q w₁ ≤ cosSim q w₂ := by
  have hQ : (0 : ℝ) < (sqnorm q : ℝ) := by exact_mod_cast hq
  constructor
  · intro h
    have h' : (simKey q w₁ : ℝ) / (sqnorm q : ℝ) ≤ (simKey q w₂ : ℝ) / (sqnorm q : ℝ) := by
      rw [div_le_div_iff_of_pos_right hQ]
      exact_mod_cast h
    rw [← cosSim_mul_abs q w₁ hq h₁, ← cosSim_mul_abs q w₂ hq h₂] at h'
    exact strictMono_mul_abs.le_iff_le.mp h'
  · intro h
    have h' := strictMono_mul_abs.le_iff_le.mpr h
    rw [cosSim_mul_abs q w₁ hq h₁, cosSim_mul_abs q w₂ hq h₂] at h'
    have h'' := (div_le_div_iff_of_pos_right hQ).mp h'
    exact_mod_cast h''

theorem simKey_lt_iff (q w₁ w₂ : List ℚ) (hq : 0 < sqnorm q)
    (h₁ : 0 < sqnorm w₁) (h₂ : 0 < sqnorm w₂) :
    simKey q w₁ < simKey q w₂ ↔ cosSim q w₁ < cosSim q w₂ := by
  rw [← not_le, ← not_le, not_iff_not]
  exact simKey_le_iff q w₂ w₁ hq h₂ h₁

theorem simKey_eq_iff (q w₁ w₂ : List ℚ) (hq : 0 < sqnorm q)
    (h₁ : 0 < sqnorm w₁) (h₂ : 0 < sqnorm w₂) :
    simKey q w₁ = simKey q w₂ ↔ cosSim q w₁ = cosSim q w₂ := by
  constructor
  · intro h
    exact le_antisymm ((simKey_le_iff q w₁ w₂ hq h₁ h₂).mp h.le)
      ((simKey_le_iff q w₂ w₁ hq h₂ h₁).mp h.ge)
  · intro h
    exact le_antisymm ((simKey_le_iff q w₁ w₂ hq h₁ h₂).mpr h.le)
      ((simKey_le_iff q w₂ w₁ hq h₂ h₁).mpr h.ge)

/-- Cosine similarity of a nonzero vector with itself is exactly 1. -/
theorem cosSim_self (v : List ℚ) (hv : 0 < sqnorm v) : cosSim v v = 1 := by
  have hV : (0 : ℝ) < (sqnorm v : ℝ) := by exact_mod_cast hv
  have h2 : Real.sqrt (sqnorm v) * Real.sqrt (sqnorm v) = (sqnorm v : ℝ) :=
    Real.mul_self_sqrt (le_of_lt hV)
  rw [cosSim, h2]
  have h : ((dot v v : ℚ) : ℝ) = (sqnorm v : ℝ) := rfl
  rw [h, div_self (ne_of_gt hV)]

/-- A candidate whose ranking key reaches the self-match key has cosine
similarity exactly 1 with the query. -/
theorem cosSim_eq_one_of_key (q w : List ℚ) (hq : 0 < sqnorm q)
    (hw : 0 < sqnorm w) (hkey : simKey q w = sqnorm q) : cosSim q w = 1 := by
  have hQ : (0 : ℝ) < (sqnorm q : ℝ) := by exact_mod_cast hq
  have hW : (0 : ℝ) < (sqnorm w : ℝ) := by exact_mod_cast hw
  rw [simKey_of_ne q w (ne_of_gt hw)] at hkey
  have hmul : dot q w * |dot q w| = sqnorm q * sqnorm w := by
    field_simp at hkey
    linarith [hkey]
  have hpos : 0 < dot q w := by
    rcases lt_trichotomy (dot q w) 0 with h | h | h
    · exfalso
      have : dot q w * |dot q w| ≤ 0 :=
        mul_nonpos_iff.mpr (Or.inr ⟨le_of_lt h, abs_nonneg _⟩)
      nlinarith [mul_pos hq hw]
    · exfalso
      rw [h, zero_mul] at hmul
      nlinarith [mul_pos hq hw]
    · exact h
  have hsq : dot q w * dot q w = sqnorm q * sqnorm w := by
    rw [abs_of_pos hpos] at hmul
    exact hmul
  have hD : (0 : ℝ) < (dot q w : ℝ) := by exact_mod_cast hpos
  have hsqR : ((dot q w : ℚ) : ℝ) * ((dot q w : ℚ) : ℝ) = (sqnorm q : ℝ) * (sqnorm w : ℝ) := by
    exact_mod_cast hsq
  have hroot : Real.sqrt (sqnorm q) * Real.sqrt (sqnorm w) = ((dot q w : ℚ) : ℝ) := by
    rw [← Real.sqrt_mul (le_of_lt hQ), ← hsqR, Real.sqrt_mul_self (le_of_lt hD)]
  rw [cosSim, hroot, div_self (ne_of_gt hD)]

/-! Structural lemmas about the ranked search. -/

theorem withIdx_map_snd {α : Type} (i : ℕ) (l : List α) :
    (withIdx i l).map Prod.snd = l := by
  induction l generalizing i with
  | nil => rfl
  | cons a l ih => simp [withIdx, ih]

theorem withIdx_length {α : Type} (i : ℕ) (l : List α) :
    (withIdx i l).length = l.length := by
  induction l generalizing i with
  | nil => rfl
  | cons a l ih => simp [withIdx, ih]

theorem snd_mem_of_mem_withIdx {α : Type} {i : ℕ} {l : List α} {p : ℕ × α}
    (h : p ∈ withIdx i l) : p.2 ∈ l := by
  induction l generalizing i with
  | nil => cases h
  | cons a l ih =>
      rcases List.mem_cons.mp h with h' | h'
      · rw [h']
        exact List.mem_cons_self a l
      · exact List.mem_cons_of_mem a (ih h')

theorem mem_withIdx_of_mem {α : Type} {a : α} {l : List α} (h : a ∈ l) (i : ℕ) :
    ∃ j, (j, a) ∈ withIdx i l := by
  induction l generalizing i with
  | nil => cases h
  | cons b l ih =>
      rcases List.mem_cons.mp h with rfl | h
      · exact ⟨i, List.mem_cons_self _ _⟩
      · rcases ih h (i + 1) with ⟨j, hj⟩
        exact ⟨j, List.mem_cons_of_mem _ hj⟩

theorem searchRanked_perm (s : VectorStore) (q : List ℚ) :
    (searchRanked s q).Perm (withIdx 0 s.records) :=
  List.perm_insertionSort (rankRel q) (withIdx 0 s.records)

theorem searchRanked_sorted (s : VectorStore) (q : List ℚ) :
    List.Sorted (rankRel q) (searchRanked s q) :=
  List.sorted_insertionSort (rankRel q) (withIdx 0 s.records)

theorem searchRanked_length (s : VectorStore) (q : List ℚ) :
    (searchRanked s q).length = s.records.length := by
  rw [searchRanked, List.length_insertionSort, withIdx_length]

theorem snd_mem_records_of_mem_searchRanked {s : VectorStore} {q : List ℚ}
    {p : ℕ × IndexedRecord} (h : p ∈ searchRanked s q) : p.2 ∈ s.records :=
  snd_mem_of_mem_withIdx ((searchRanked_perm s q).mem_iff.mp h)

theorem similarity_search_nil (s : VectorStore) (q : List ℚ) (k : ℕ)
    (h : s.records = []) : s.similarity_search q k = [] := by
  simp [VectorStore.similarity_search, searchRanked, h, withIdx]

theorem similarity_search_length (s : VectorStore) (q : List ℚ) (k : ℕ) :
    (s.similarity_search q k).length = min k s.records.length := by
  rw [VectorStore.similarity_search, List.length_map, List.length_take,
    searchRanked_length]

/-! Lemmas about the cache lookup. -/

theorem bestMatch_aux_mem (qv : List ℚ) :
    ∀ (l : List CacheEntry) (acc : Option CacheEntry) (b : CacheEntry),
      l.foldl (bestStep qv) acc = some b → b ∈ l ∨ acc = some b := by
  intro l
  induction l with
  | nil => intro acc b h; exact Or.inr h
  | cons e l ih =>
      intro acc b h
      rw [List.foldl_cons] at h
      rcases ih (bestStep qv acc e) b h with hmem | hacc
      · exact Or.inl (List.mem_cons_of_mem e hmem)
      · cases acc with
        | none =>
            simp [bestStep] at hacc
            exact Or.inl (hacc ▸ List.mem_cons_self e l)
        | some a =>
            by_cases hle : simKey qv a.query_vector ≤ simKey qv e.query_vector
            · simp [bestStep, hle] at hacc
              exact Or.inl (hacc ▸ List.mem_cons_self e l)
            · simp [bestStep, hle] at hacc
              exact Or.inr (congrArg some hacc)

theorem bestMatch_mem {qv : List ℚ} {l : List CacheEntry} {b : CacheEntry}
    (h : bestMatch qv l = some b) : b ∈ l := by
  rcases bestMatch_aux_mem qv l none b h with hmem | hacc
  · exact hmem
  · cases hacc

theorem bestMatch_append_singleton (qv : List ℚ) (l : List CacheEntry)
    (e : CacheEntry) :
    bestMatch qv (l ++ [e]) = bestStep qv (bestMatch qv l) e := by
  rw [bestMatch, List.foldl_append]
  rfl

theorem mem_liveEntries_iff {entries : List CacheEntry} {now : ℕ}
    {e : CacheEntry} :
    e ∈ liveEntries entries now ↔ e ∈ entries ∧ now ≤ e.created_at + e.ttl := by
  simp [liveEntries, List.mem_filter]

theorem lookupHit_live {entries : List CacheEntry} {qv : List ℚ} {t : ℚ}
    {now : ℕ} {e : CacheEntry} (h : lookupHit entries qv t now = some e) :
    e ∈ entries ∧ now ≤ e.created_at + e.ttl := by
  rw [lookupHit] at h
  split at h
  · cases h
  · rename_i b hb
    split at h
    · cases h
      exact mem_liveEntries_iff.mp (bestMatch_mem hb)
    · cases h

/-- After a miss stores the query's own embedding, an identical query finds
the freshly stored entry: it strictly beats every previously live entry
(all of which scored below the threshold) and passes the threshold test. -/
theorem lookupHit_append_self (old : List CacheEntry) (qv : List ℚ) (t : ℚ)
    (now ttl : ℕ) (r : String) (hq : 0 < sqnorm qv) (ht : t * |t| ≤ 1)
    (hmiss : lookupHit old qv t now = none) :
    lookupHit (old ++ [⟨qv, r, now, ttl⟩]) qv t now =
      some ⟨qv, r, now, ttl⟩ := by
  have hlive : liveEntries (old ++ [⟨qv, r, now, ttl⟩]) now =
      liveEntries old now ++ [⟨qv, r, now, ttl⟩] := by
    simp [liveEntries, List.filter_append, Nat.le_add_right]
  have hkey : simKey qv (⟨qv, r, now, ttl⟩ : CacheEntry).query_vector = sqnorm qv :=
    simKey_self qv hq
  have hthr : t * |t| * sqnorm qv ≤ sqnorm qv := by nlinarith [hq]
  rw [lookupHit, hlive, bestMatch_append_singleton]
  rw [lookupHit] at hmiss
  split at hmiss
  · rename_i hb
    rw [hb]
    simp [bestStep, hkey, hthr]
  · rename_i b hb
    split at hmiss
    · cases hmiss
    · rename_i hth
      rw [hb]
      have hble : simKey qv b.query_vector ≤ sqnorm qv := by
        have hlt : simKey qv b.query_vector < t * |t| * sqnorm qv :=
          lt_of_not_le hth
        linarith
      simp only [bestStep, hkey, if_pos hble]
      simp [hkey, hthr]

/-! Lemmas about the session manager. -/

theorem findSession_update_of_found {l : List (String × Session)} {sid : String}
    {s s₂ : Session} (h : findSession l sid = some s) :
    findSession (updateSession l sid s₂) sid = some s₂ := by
  induction l with
  | nil => cases h
  | cons p rest ih =>
      by_cases hp : p.1 = sid
      · simp [updateSession, findSession, hp]
      · rw [findSession, if_neg hp] at h
        simp only [updateSession, List.map_cons, if_neg hp]
        rw [findSession, if_neg hp]
        exact ih h

/-- C7: for every session id, once `now - updated_at > ttl` (or the session
was never created), `get_session` and `append_turn` fail exactly as for a
nonexistent session (the explicit absent indicator `none`), and `history`
does too; no read from or append to the expired state happens. -/
theorem c7_expired_behaves_absent (m : SessionManager) (sid : String)
    (role : Role) (content : String) (now : ℕ)
    (h : findSession m.sessions sid = none ∨
      ∃ s, findSession m.sessions sid = some s ∧ s.updated_at + s.ttl < now) :
    m.get_session sid now = none ∧
    m.append_turn sid role content now = none ∧
    ∀ maxTurns, m.history sid now maxTurns = none := by
  have hg : m.get_session sid now = none := by
    rcases h with h | ⟨s, hs, hexp⟩
    · simp [SessionManager.get_session, h]
    · simp [SessionManager.get_session, hs, if_pos hexp]
  refine ⟨hg, ?_, ?_⟩
  · simp [SessionManager.append_turn, hg]
  · intro maxTurns
    simp [SessionManager.history, hg]

/-- C7 witness: a session whose ttl elapsed (updated at 0, ttl 5, queried
at 100) is absent for reads and appends. -/
theorem c7_expired_behaves_absent_witness :
    SessionManager.get_session ⟨[("s", ⟨"s", [], [], 0, 5⟩)], 5⟩ "s" 100 = none ∧
    SessionManager.append_turn ⟨[("s", ⟨"s", [], [], 0, 5⟩)], 5⟩ "s"
      Role.user "hello" 100 = none := by
  have h := c7_expired_behaves_absent ⟨[("s", ⟨"s", [], [], 0, 5⟩)], 5⟩ "s"
    Role.user "hello" 100 (Or.inr ⟨⟨"s", [], [], 0, 5⟩, rfl, by norm_num⟩)
  exact ⟨h.1, h.2.1⟩

/-- C8: for a live session, `append_turn` appends exactly one turn at the
end (nothing is reordered, edited or removed), `history` returns the turns
oldest-first, bounded `history` returns the suffix of the most recent
`maxTurns` in the same order, and appending `[A, B, C]` to a fresh session
and reading `history` yields exactly `[A, B, C]`. -/
theorem c8_append_order :
    (∀ (m : SessionManager) (sid : String) (s : Session) (role : Role)
        (content : String) (now : ℕ),
      findSession m.sessions sid = some s → ¬(s.updated_at + s.ttl < now) →
      m.append_turn sid role content now =
        some { m with sessions := updateSession m.sessions sid { s with turns := s.turns ++ [⟨role, content, now⟩], updated_at := now } }) ∧
    (∀ (m : SessionManager) (sid : String) (s : Session) (now : ℕ),
      findSession m.sessions sid = some s → ¬(s.updated_at + s.ttl < now) →
      m.history sid now none = some s.turns ∧
      ∀ n, m.history sid now (some n) =
        some (s.turns.drop (s.turns.length - n))) ∧
    ((SessionManager.create_session ⟨[], 86400⟩ "s1" [] 0).append_turn "s1"
          Role.user "A" 0 |>.bind
        (fun m => m.append_turn "s1" Role.assistant "B" 0) |>.bind
        (fun m => m.append_turn "s1" Role.user "C" 0) |>.bind
        (fun m => m.history "s1" 0 none)) =
      some [⟨Role.user, "A", 0⟩, ⟨Role.assistant, "B", 0⟩, ⟨Role.user, "C", 0⟩] := by
  refine ⟨?_, ?_, ?_⟩
  · intro m sid s role content now hfind hlive
    simp [SessionManager.append_turn, SessionManager.get_session, hfind, hlive]
  · intro m sid s now hfind hlive
    constructor
    · simp [SessionManager.history, SessionManager.get_session, hfind,
        if_neg hlive]
    · intro n
      simp [SessionManager.history, SessionManager.get_session, hfind,
        if_neg hlive]
  · rfl

/-- C8 witness: bounded history of a live session with three turns is the
suffix of the most recent two, in order. -/
theorem c8_append_order_witness :
    SessionManager.history
      ⟨[("s1", ⟨"s1", [⟨Role.user, "A", 0⟩, ⟨Role.assistant, "B", 0⟩,
        ⟨Role.user, "C", 0⟩], [], 0, 86400⟩)], 86400⟩ "s1" 0 (some 2) =
      some [⟨Role.assistant, "B", 0⟩, ⟨Role.user, "C", 0⟩] := by
  have h := (c8_append_order.2.1
    ⟨[("s1", ⟨"s1", [⟨Role.user, "A", 0⟩, ⟨Role.assistant, "B", 0⟩,
      ⟨Role.user, "C", 0⟩], [], 0, 86400⟩)], 86400⟩ "s1"
    ⟨"s1", [⟨Role.user, "A", 0⟩, ⟨Role.assistant, "B", 0⟩,
      ⟨Role.user, "C", 0⟩], [], 0, 86400⟩ 0 rfl (by norm_num)).2 2
  exact h

/-- C1: a `get_or_generate` call that finds no non-expired entry at or
above the threshold invokes `generate_fn` exactly once and, on success,
stores a new `CacheEntry` with the query's embedding, the response, the
current timestamp and the cache's configured ttl, returning the response
with `cache_hit = false`; an immediately following call with the identical
query text (threshold `0.95`, within ttl) returns the stored response with
`cache_hit = true` and does not invoke `generate_fn` again. -/
theorem c1_miss_generates_once_then_hits (c : SemanticCache)
    (embed : String → Option (List ℚ)) (gen : String → Option String)
    (q : String) (now : ℕ) (qv : List ℚ) (r : String)
    (hembed : embed q = some qv) (hq : 0 < sqnorm qv) (hgen : gen q = some r)
    (hmiss : lookupHit c.entries qv c.similarity_threshold now = none) :
    get_or_generate c embed gen q now =
      ⟨Except.ok (r, false),
        { c with entries := c.entries ++ [⟨qv, r, now, c.ttl⟩] }, 1⟩ ∧
    (c.similarity_threshold = 19 / 20 →
      get_or_generate { c with entries := c.entries ++ [⟨qv, r, now, c.ttl⟩] }
          embed gen q now =
        ⟨Except.ok (r, true),
          { c with entries := c.entries ++ [⟨qv, r, now, c.ttl⟩] }, 0⟩) := by
  constructor
  · simp [get_or_generate, hembed, hmiss, hgen]
  · intro hth
    have ht : c.similarity_threshold * |c.similarity_threshold| ≤ 1 := by
      rw [hth, abs_of_pos (by norm_num : (0 : ℚ) < 19 / 20)]
      norm_num
    have hhit := lookupHit_append_self c.entries qv c.similarity_threshold
      now c.ttl r hq ht hmiss
    simp [get_or_generate, hembed, hhit]

/-- C1 witness: empty cache with threshold `0.95`; the first call misses,
invokes the generator once and stores an entry; the repeated identical call
hits without invoking the generator. -/
theorem c1_miss_generates_once_then_hits_witness :
    get_or_generate ⟨[], 19 / 20, 3600⟩
        (fun s => if s = "price of truck X" then some [1] else none)
        (fun _ => some "gen-answer") "price of truck X" 0 =
      ⟨Except.ok ("gen-answer", false),
        ⟨[⟨[1], "gen-answer", 0, 3600⟩], 19 / 20, 3600⟩, 1⟩ ∧
    get_or_generate ⟨[⟨[1], "gen-answer", 0, 3600⟩], 19 / 20, 3600⟩
        (fun s => if s = "price of truck X" then some [1] else none)
        (fun _ => some "gen-answer") "price of truck X" 0 =
      ⟨Except.ok ("gen-answer", true),
        ⟨[⟨[1], "gen-answer", 0, 3600⟩], 19 / 20, 3600⟩, 0⟩ := by
  have h := c1_miss_generates_once_then_hits ⟨[], 19 / 20, 3600⟩
    (fun s => if s = "price of truck X" then some [1] else none)
    (fun _ => some "gen-answer") "price of truck X" 0 [1] "gen-answer"
    rfl (by norm_num [sqnorm, dot]) rfl rfl
  exact ⟨h.1, h.2 rfl⟩

/-- C3: the Semantic Cache never returns an entry as a hit at a time
strictly past its `created_at + ttl` — any returned hit is stored and
non-expired, so an expired entry is never the result even for an identical
query vector and even while physically present in the entry list. -/
theorem c3_expired_never_hit (entries : List CacheEntry) (qv : List ℚ)
    (t : ℚ) (now : ℕ) :
    (∀ e, lookupHit entries qv t now = some e →
      e ∈ entries ∧ now ≤ e.created_at + e.ttl) ∧
    (∀ e ∈ entries, e.created_at + e.ttl < now →
      lookupHit entries qv t now ≠ some e) := by
  refine ⟨fun e h => lookupHit_live h, ?_⟩
  intro e _ hexp hcontra
  have h := (lookupHit_live hcontra).2
  omega

/-- C3 witness: an entry created at 0 with ttl 5, queried at time 10 with
its own stored vector, is not returned. -/
theorem c3_expired_never_hit_witness :
    lookupHit [⟨[1], "resp", 0, 5⟩] [1] 0 10 ≠ some ⟨[1], "resp", 0, 5⟩ :=
  (c3_expired_never_hit [⟨[1], "resp", 0, 5⟩] [1] 0 10).2
    ⟨[1], "resp", 0, 5⟩ (List.mem_singleton.mpr rfl) (by norm_num)

/-- C6: if the embedding call or `generate_fn` fails during a cache-miss
flow, no `CacheEntry` is written — the cache state after the failed call
equals the state before it; whenever the state changes, generation has
succeeded and exactly the one new entry was appended. -/
theorem c6_failure_writes_nothing (c : SemanticCache)
    (embed : String → Option (List ℚ)) (gen : String → Option String)
    (q : String) (now : ℕ) :
    (∀ err, (get_or_generate c embed gen q now).result = Except.error err →
      (get_or_generate c embed gen q now).cache = c) ∧
    ((get_or_generate c embed gen q now).cache ≠ c →
      ∃ qv r, embed q = some qv ∧ gen q = some r ∧
        (get_or_generate c embed gen q now).result = Except.ok (r, false) ∧
        (get_or_generate c embed gen q now).cache =
          { c with entries := c.entries ++ [⟨qv, r, now, c.ttl⟩] }) := by
  cases hembed : embed q with
  | none =>
      constructor
      · intro err _
        simp [get_or_generate, hembed]
      · intro hne
        exact absurd (by simp [get_or_generate, hembed]) hne
  | some qv =>
      cases hhit : lookupHit c.entries qv c.similarity_threshold now with
      | some e =>
          constructor
          · intro err herr
            simp [get_or_generate, hembed, hhit]
          · intro hne
            exact absurd (by simp [get_or_generate, hembed, hhit]) hne
      | none =>
          cases hgen : gen q with
          | none =>
              constructor
              · intro err _
                simp [get_or_generate, hembed, hhit, hgen]
              · intro hne
                exact absurd (by simp [get_or_generate, hembed, hhit, hgen]) hne
          | some r =>
              constructor
              · intro err herr
                simp [get_or_generate, hembed, hhit, hgen] at herr
              · intro _
                exact ⟨qv, r, rfl, rfl, by simp [get_or_generate, hembed, hhit, hgen],
                  by simp [get_or_generate, hembed, hhit, hgen]⟩

/-- C6 witness: a failing embedding leaves the cache exactly as it was. -/
theorem c6_failure_writes_nothing_witness :
    (get_or_generate ⟨[], 1, 60⟩ (fun _ => none) (fun _ => none) "q" 0).cache =
      ⟨[], 1, 60⟩ :=
  (c6_failure_writes_nothing ⟨[], 1, 60⟩ (fun _ => none) (fun _ => none)
    "q" 0).1 CacheError.embeddingFailure rfl

/-- C9: the RAG Orchestrator's `answer` still invokes `generate_fn` and
returns its response when the Vector Store returns zero records (empty
index, or no retrieved record for the query): generation is invoked with
the empty grounding context, and the call does not fail. -/
theorem c9_rag_generates_without_grounding :
    (∀ (s : VectorStore) (q : List ℚ) (k : ℕ), s.records = [] →
      s.similarity_search q k = []) ∧
    (∀ (s : VectorStore) (embed : String → Option (List ℚ))
        (gen : String → String → Option String) (q : String) (k : ℕ)
        (qv : List ℚ), embed q = some qv → s.similarity_search qv k = [] →
      RAG.answer s embed gen q k = gen "" q) ∧
    (∀ (s : VectorStore) (embed : String → Option (List ℚ))
        (gen : String → String → Option String) (q : String) (k : ℕ)
        (qv : List ℚ) (r : String), embed q = some qv →
      s.similarity_search qv k = [] → gen "" q = some r →
      RAG.answer s embed gen q k = some r) := by
  have hmain : ∀ (s : VectorStore) (embed : String → Option (List ℚ))
      (gen : String → String → Option String) (q : String) (k : ℕ)
      (qv : List ℚ), embed q = some qv → s.similarity_search qv k = [] →
      RAG.answer s embed gen q k = gen "" q := by
    intro s embed gen q k qv hembed hsearch
    simp [RAG.answer, hembed, hsearch]
    rfl
  refine ⟨fun s q k h => similarity_search_nil s q k h, hmain, ?_⟩
  intro s embed gen q k qv r hembed hsearch hgen
  rw [hmain s embed gen q k qv hembed hsearch, hgen]

/-- C9 witness: on an empty store the orchestrator returns the generator's
response produced from the empty grounding context. -/
theorem c9_rag_generates_without_grounding_witness :
    RAG.answer ⟨2, []⟩ (fun _ => some [1, 0])
      (fun ctx _ => some ("ctx:" ++ ctx)) "any query" 5 = some "ctx:" := by
  exact c9_rag_generates_without_grounding.2.2 ⟨2, []⟩ (fun _ => some [1, 0])
    (fun ctx _ => some ("ctx:" ++ ctx)) "any query" 5 [1, 0] "ctx:" rfl
    (c9_rag_generates_without_grounding.1 ⟨2, []⟩ [1, 0] 5 rfl) rfl

/-- C10: `sendChatRequest` sends exactly the configured system prompt as
the first message followed by the caller's messages unchanged and in their
original order; the outgoing list always begins with a role `"system"`
message, even when the caller's list already contains one. -/
theorem c10_system_prompt_prepended (messages : List ChatMsg)
    (config : PartialORConfig) (envApiKey envModel : Option String)
    (hkey : (mergeConfig (defaultConfig envApiKey envModel) config).apiKey ≠ "") :
    ∃ body, sendChatRequest messages config envApiKey envModel = Except.ok body ∧
      body.messages =
        (⟨"system", (mergeConfig (defaultConfig envApiKey envModel) config).systemPrompt⟩ : ChatMsg) :: messages ∧
      (body.messages.map ChatMsg.role).head? = some "system" ∧
      body.messages.tail = messages := by
  rw [sendChatRequest]
  simp only [if_neg hkey]
  exact ⟨_, rfl, rfl, rfl, rfl⟩

/-- C10 witness: even a caller message list that itself starts with a
`"system"` message is sent behind the configured system prompt, unchanged
and in order. -/
theorem c10_system_prompt_prepended_witness :
    Except.map (fun body => RequestBody.messages body)
      (sendChatRequest [⟨"system", "injected"⟩, ⟨"user", "hi"⟩]
        ⟨some "k", none, none⟩ none none) =
      Except.ok [⟨"system", annaSystemPrompt⟩, ⟨"system", "injected"⟩,
        ⟨"user", "hi"⟩] := by
  obtain ⟨body, hb, hmsg, _, _⟩ := c10_system_prompt_prepended
    [⟨"system", "injected"⟩, ⟨"user", "hi"⟩] ⟨some "k", none, none⟩ none none
    (by simp [mergeConfig, defaultConfig])
  rw [hb, Except.map, hmsg]
  rfl

/-- C4: `similarity_search` returns the candidate records ordered by
descending cosine-similarity score, ties broken by insertion order with
the earlier-inserted record first, truncated to the top `k`; an empty
store yields an empty sequence.  On the records `[1,0]`, `[0,1]`,
`[0.9,0.1]` with query `[1,0]` and `k = 2`, the result is the `[1,0]`
record (score 1.0) followed by the `[0.9,0.1]` record
(score `9/√82 ≈ 0.994`), with the `[0,1]` record excluded. -/
theorem c4_search_ordering :
    (∀ (s : VectorStore) (q : List ℚ) (k : ℕ), s.records = [] →
      s.similarity_search q k = []) ∧
    (∀ (s : VectorStore) (q : List ℚ) (k : ℕ),
      (s.similarity_search q k).length = min k s.records.length) ∧
    (∀ (s : VectorStore) (q : List ℚ) (k : ℕ), 0 < sqnorm q →
      (∀ r ∈ s.records, 0 < sqnorm r.vector) →
      (s.similarity_search q k).Pairwise
        (fun r₁ r₂ => cosSim q r₂.vector ≤ cosSim q r₁.vector)) ∧
    (∀ (s : VectorStore) (q : List ℚ), 0 < sqnorm q →
      (∀ r ∈ s.records, 0 < sqnorm r.vector) →
      (searchRanked s q).Pairwise
        (fun p₁ p₂ => cosSim q p₂.2.vector < cosSim q p₁.2.vector ∨
          (cosSim q p₁.2.vector = cosSim q p₂.2.vector ∧ p₁.1 ≤ p₂.1))) ∧
    (exampleStoreBuilt = Except.ok exampleStore ∧
      exampleStore.similarity_search [1, 0] 2 = [exRec1, exRec3] ∧
      cosSim [1, 0] exRec1.vector = 1 ∧
      (9938 / 10000 : ℝ) < cosSim [1, 0] exRec3.vector ∧
      cosSim [1, 0] exRec3.vector < (994 / 1000 : ℝ) ∧
      exRec2 ∉ exampleStore.similarity_search [1, 0] 2) := by
  have hrank : ∀ (s : VectorStore) (q : List ℚ), 0 < sqnorm q →
      (∀ r ∈ s.records, 0 < sqnorm r.vector) →
      (searchRanked s q).Pairwise
        (fun p₁ p₂ => cosSim q p₂.2.vector < cosSim q p₁.2.vector ∨
          (cosSim q p₁.2.vector = cosSim q p₂.2.vector ∧ p₁.1 ≤ p₂.1)) := by
    intro s q hq hrec
    have hp : (searchRanked s q).Pairwise (rankRel q) := searchRanked_sorted s q
    refine hp.imp_of_mem ?_
    intro p₁ p₂ h₁ h₂ hrel
    have hv₁ : 0 < sqnorm p₁.2.vector :=
      hrec _ (snd_mem_records_of_mem_searchRanked h₁)
    have hv₂ : 0 < sqnorm p₂.2.vector :=
      hrec _ (snd_mem_records_of_mem_searchRanked h₂)
    rcases hrel with hlt | ⟨heq, hle⟩
    · exact Or.inl ((simKey_lt_iff q _ _ hq hv₂ hv₁).mp hlt)
    · exact Or.inr ⟨(simKey_eq_iff q _ _ hq hv₁ hv₂).mp heq, hle⟩
  refine ⟨fun s q k h => similarity_search_nil s q k h,
    fun s q k => similarity_search_length s q k, ?_, hrank, ?_⟩
  · intro s q k hq hrec
    rw [VectorStore.similarity_search, List.pairwise_map]
    refine List.Pairwise.imp ?_
      (List.Pairwise.sublist (List.take_sublist k _) (hrank s q hq hrec))
    intro a b hab
    rcases hab with h | ⟨h, _⟩
    · exact le_of_lt h
    · exact le_of_eq h.symm
  · have hsearch : exampleStore.similarity_search [1, 0] 2 = [exRec1, exRec3] := by
      norm_num [VectorStore.similarity_search, searchRanked, withIdx,
        List.insertionSort, List.orderedInsert, rankRel, simKey, dot, sqnorm,
        exampleStore, exRec1, exRec2, exRec3, abs_of_pos, abs_zero, abs_one]
    have hvec3 : exRec3.vector = [9 / 10, 1 / 10] := rfl
    have hd : dot [1, 0] [9 / 10, 1 / 10] = 9 / 10 := by norm_num [dot]
    have hq1 : sqnorm [(1 : ℚ), 0] = 1 := by norm_num [sqnorm, dot]
    have hv3 : sqnorm [(9 : ℚ) / 10, 1 / 10] = 41 / 50 := by
      norm_num [sqnorm, dot]
    have hs : (0 : ℝ) < Real.sqrt ((41 : ℝ) / 50) :=
      Real.sqrt_pos.mpr (by norm_num)
    have hcos3 : cosSim [1, 0] exRec3.vector =
        (9 / 10 : ℝ) / Real.sqrt ((41 : ℝ) / 50) := by
      rw [hvec3, cosSim, hd, hq1, hv3]
      push_cast
      rw [Real.sqrt_one, one_mul]
    refine ⟨rfl, hsearch, ?_, ?_, ?_, ?_⟩
    · show cosSim [1, 0] exRec1.vector = 1
      have hv1 : exRec1.vector = [1, 0] := rfl
      rw [hv1]
      exact cosSim_self [1, 0] (by norm_num [sqnorm, dot])
    · rw [hcos3, lt_div_iff₀ hs]
      have h1 : Real.sqrt ((41 : ℝ) / 50) < 9000 / 9938 := by
        rw [Real.sqrt_lt' (by norm_num : (0 : ℝ) < 9000 / 9938)]
        norm_num
      nlinarith [h1]
    · rw [hcos3, div_lt_iff₀ hs]
      have h2 : (900 / 994 : ℝ) < Real.sqrt ((41 : ℝ) / 50) := by
        rw [Real.lt_sqrt (by norm_num : (0 : ℝ) ≤ 900 / 994)]
        norm_num
      nlinarith [h2]
    · rw [hsearch]
      simp [exRec1, exRec2, exRec3]

/-- C4 witness: the descending-score ordering instantiated on the three
scenario records with `k = 2`. -/
theorem c4_search_ordering_witness :
    (exampleStore.similarity_search [1, 0] 2).Pairwise
      (fun r₁ r₂ => cosSim [1, 0] r₂.vector ≤ cosSim [1, 0] r₁.vector) :=
  c4_search_ordering.2.2.1 exampleStore [1, 0] 2
    (by norm_num [sqnorm, dot])
    (by
      intro r hr
      simp only [exampleStore, List.mem_cons, List.mem_singleton] at hr
      rcases hr with rfl | rfl | rfl | h
      · norm_num [exRec1, sqnorm, dot]
      · norm_num [exRec2, sqnorm, dot]
      · norm_num [exRec3, sqnorm, dot]
      · cases h)

/-- C5 counterexample: the claim fails as stated.  With two records
carrying the identical vector `[1]` and `k = 1`, the second-inserted
record satisfies every premise of the claim (it was inserted, `k ≥ 1`, the
query is its own vector), yet `similarity_search` does not return it: the
tie at score 1.0 is broken in favour of the earlier-inserted duplicate and
the result is truncated to the top 1. -/
theorem c5_counterexample :
    (⟨"b", [1], "B", []⟩ : IndexedRecord) ∈
      (⟨1, [⟨"a", [1], "A", []⟩, ⟨"b", [1], "B", []⟩]⟩ : VectorStore).records ∧
    (1 : ℕ) ≤ 1 ∧ 0 < sqnorm [(1 : ℚ)] ∧
    VectorStore.similarity_search
      ⟨1, [⟨"a", [1], "A", []⟩, ⟨"b", [1], "B", []⟩]⟩ [1] 1 =
        [⟨"a", [1], "A", []⟩] ∧
    (⟨"b", [1], "B", []⟩ : IndexedRecord) ∉
      VectorStore.similarity_search
        ⟨1, [⟨"a", [1], "A", []⟩, ⟨"b", [1], "B", []⟩]⟩ [1] 1 := by
  have hsearch : VectorStore.similarity_search
      ⟨1, [⟨"a", [1], "A", []⟩, ⟨"b", [1], "B", []⟩]⟩ [1] 1 =
        [⟨"a", [1], "A", []⟩] := by
    norm_num [VectorStore.similarity_search, searchRanked, withIdx,
      List.insertionSort, List.orderedInsert, rankRel, simKey, dot, sqnorm,
      abs_of_pos, abs_zero, abs_one]
  refine ⟨by simp, le_refl 1, by norm_num [sqnorm, dot], hsearch, ?_⟩
  rw [hsearch]
  simp

/-- C5 (amended): for every inserted record with nonzero vector, querying
`similarity_search` with the record's own vector and `k ≥ 1` returns a
top result whose cosine score is exactly 1.0; and whenever `k` is at least
the number of stored records, the record itself is among the results with
score exactly 1.0. -/
theorem c5_self_match (s : VectorStore) (r : IndexedRecord) (k : ℕ)
    (hr : r ∈ s.records) (hv : 0 < sqnorm r.vector) (hk : 1 ≤ k) :
    (∃ r₀ rest, s.similarity_search r.vector k = r₀ :: rest ∧
      cosSim r.vector r₀.vector = 1) ∧
    (s.records.length ≤ k →
      r ∈ s.similarity_search r.vector k ∧ cosSim r.vector r.vector = 1) := by
  obtain ⟨j, hj⟩ := mem_withIdx_of_mem hr 0
  have hjS : (j, r) ∈ searchRanked s r.vector :=
    (searchRanked_perm s r.vector).mem_iff.mpr hj
  constructor
  · obtain ⟨p, L, hL⟩ : ∃ p L, searchRanked s r.vector = p :: L := by
      cases hsr : searchRanked s r.vector with
      | nil =>
          exfalso
          rw [hsr] at hjS
          cases hjS
      | cons p L => exact ⟨p, L, rfl⟩
    have hselfkey : simKey r.vector r.vector = sqnorm r.vector :=
      simKey_self _ hv
    have hple : simKey r.vector p.2.vector ≤ sqnorm r.vector :=
      simKey_le_sqnorm _ _ (le_of_lt hv)
    have hpge : sqnorm r.vector ≤ simKey r.vector p.2.vector := by
      rw [hL] at hjS
      rcases List.mem_cons.mp hjS with heq | hmem
      · rw [← heq]
        exact le_of_eq hselfkey.symm
      · have hsorted : List.Sorted (rankRel r.vector) (p :: L) := by
          rw [← hL]
          exact searchRanked_sorted s r.vector
        have hrel : rankRel r.vector p (j, r) :=
          List.rel_of_sorted_cons hsorted _ hmem
        rcases hrel with hlt | ⟨heq, _⟩
        · exact le_of_lt (by simpa [hselfkey] using hlt)
        · exact le_of_eq (by simpa [hselfkey] using heq.symm)
    have hpkey : simKey r.vector p.2.vector = sqnorm r.vector :=
      le_antisymm hple hpge
    have hWpos : 0 < sqnorm p.2.vector := by
      by_contra hc
      have h0 : sqnorm p.2.vector = 0 :=
        le_antisymm (not_lt.mp hc) (sqnorm_nonneg _)
      have hz : simKey r.vector p.2.vector = 0 := by
        rw [simKey, if_pos h0]
      rw [hz] at hpkey
      exact (ne_of_gt hv) hpkey.symm
    have hcos : cosSim r.vector p.2.vector = 1 :=
      cosSim_eq_one_of_key _ _ hv hWpos hpkey
    obtain ⟨k₂, rfl⟩ : ∃ k₂, k = k₂ + 1 :=
      ⟨k - 1, (Nat.succ_pred_eq_of_pos hk).symm⟩
    refine ⟨p.2, (L.take k₂).map Prod.snd, ?_, hcos⟩
    rw [VectorStore.similarity_search, hL, List.take_succ_cons, List.map_cons]
  · intro hlen
    have htake : (searchRanked s r.vector).take k = searchRanked s r.vector :=
      List.take_of_length_le (by rw [searchRanked_length]; exact hlen)
    refine ⟨?_, cosSim_self _ hv⟩
    rw [VectorStore.similarity_search, htake]
    exact List.mem_map.mpr ⟨(j, r), hjS, rfl⟩

/-- C5 witness: a one-record store queried with the record's own vector at
`k = 1` returns a top result with cosine score exactly 1.0. -/
theorem c5_self_match_witness :
    (∃ r₀ rest, VectorStore.similarity_search ⟨1, [⟨"a", [1], "A", []⟩]⟩
        [1] 1 = r₀ :: rest ∧ cosSim [1] r₀.vector = 1) ∧
    ((⟨"a", [1], "A", []⟩ : IndexedRecord) ∈
        VectorStore.similarity_search ⟨1, [⟨"a", [1], "A", []⟩]⟩ [1] 1 ∧
      cosSim [1] [1] = 1) := by
  have h := c5_self_match ⟨1, [⟨"a", [1], "A", []⟩]⟩ ⟨"a", [1], "A", []⟩ 1
    (by simp) (by norm_num [sqnorm, dot]) (le_refl 1)
  exact ⟨h.1, h.2 (by simp)⟩
